import Mathlib

/-!
Verification of the `unpack` HTTP request-body decoding middleware.

The Go source (`unpack.go`) is shallowly embedded below: pure helper
functions become Lean functions on `List String` / `List Nat`; the
streaming decode pipeline is given a denotational embedding in which a
(possibly failing) byte stream is a value of `Except RdErr (List Nat)`;
the stateful bounded-reader guard (`maxBytesReadCloser`) is embedded as
explicit state passing.  The external compression codecs (klauspost
gzip/zlib/zstd, stdlib flate) are outside the repository and are treated,
as the specification directs, as opaque streaming primitives: they are
modelled as header-tagged framings that reproduce their open-time header
checks and read-time failure behaviour.
-/

namespace Unpack

/-! ## Encoding token constants (unpack.go lines 26-31) -/

def encodingGzip : String := "gzip"

def encodingDeflate : String := "deflate"

def encodingZstd : String := "zstd"

def encodingIdentity : String := "identity"

/-! ## Encoding Token Parser (unpack.go `parseContentEncodings`) -/

/-- Embedding of `strings.SplitSeq(value, ",")` on the character list of a
value: split at every comma, keeping empty pieces. -/
def splitOnComma : List Char → List (List Char)
  | [] => [[]]
  | c :: rest =>
    match splitOnComma rest with
    | cur :: parts =>
      if c = ',' then [] :: cur :: parts else (c :: cur) :: parts
    | [] => [[c]]

/-- Embedding of `strings.TrimSpace`: drop leading and trailing
whitespace. -/
def trimChars (cs : List Char) : List Char :=
  (((cs.dropWhile Char.isWhitespace).reverse).dropWhile Char.isWhitespace).reverse

/-- Embedding of `strings.ToLower(strings.TrimSpace(part))` producing the
normalized token of one comma-separated piece. -/
def normalizeToken (cs : List Char) : String :=
  String.mk ((trimChars cs).map Char.toLower)

/-- Embedding of `parseContentEncodings`: for each raw header value, split on
commas, trim and lowercase each piece, and append non-empty pieces to the
accumulated list (the Go code appends to a shared slice inside two nested
loops). -/
def parseContentEncodings (headerValues : List String) : List String :=
  headerValues.foldl
    (fun acc value =>
      (splitOnComma value.toList).foldl
        (fun acc2 part =>
          let encoding := normalizeToken part
          if encoding = "" then acc2 else acc2 ++ [encoding])
        acc)
    []

/-- One token of `allSupportedEncodings`' switch: the token is in the
supported set {gzip, deflate, zstd, identity}. -/
def isSupportedEncoding (encoding : String) : Bool :=
  encoding = encodingGzip || encoding = encodingDeflate ||
    encoding = encodingZstd || encoding = encodingIdentity

/-- Embedding of `allSupportedEncodings`. -/
def allSupportedEncodings (encodings : List String) : Bool :=
  encodings.all isSupportedEncoding

/-- Embedding of `hasDecodableEncodings`: some token is gzip, deflate or
zstd. -/
def hasDecodableEncodings (encodings : List String) : Bool :=
  encodings.any
    (fun encoding =>
      encoding = encodingGzip || encoding = encodingDeflate ||
        encoding = encodingZstd)

/-- Embedding of `firstUnsupportedEncoding`: first token outside the
supported set, scanned left to right; "unknown" if none. -/
def firstUnsupportedEncoding : List String → String
  | [] => "unknown"
  | encoding :: rest =>
    if isSupportedEncoding encoding then firstUnsupportedEncoding rest
    else encoding

/-- Embedding of `decompressionErrorMessage`. -/
def decompressionErrorMessage (encoding : String) : String :=
  "Content-Encoding: " ++ encoding ++ " set but unable to decompress body"

/-- Embedding of `unsupportedEncodingMessage`. -/
def unsupportedEncodingMessage (encoding : String) : String :=
  "Content-Encoding: " ++ encoding ++ " is not supported"

/-! ## zlib header sniffing (unpack.go `looksLikeZlibHeader`) -/

/-- The two peeked bytes, when at least two bytes are available; `none`
models `bufio.Reader.Peek(2)` failing. -/
def peek2 : List Nat → Option (Nat × Nat)
  | cmf :: flg :: _ => some (cmf, flg)
  | _ => none

/-- Embedding of `looksLikeZlibHeader`: a failed peek defaults to `true`
(fail-soft); otherwise the CMF/FLG pair must have compression method 8
(low 4 bits of CMF), a window size of at most 7 (high 4 bits of CMF), and a
big-endian 16-bit value that is a multiple of 31. -/
def looksLikeZlibHeader (peeked : Option (Nat × Nat)) : Bool :=
  match peeked with
  | none => true
  | some (cmf, flg) =>
    if cmf &&& 15 ≠ 8 then false
    else if cmf >>> 4 > 7 then false
    else ((cmf <<< 8) + flg) % 31 = 0

/-! ## Error taxonomy of the streaming pipeline -/

/-- Read-time error values: end-of-stream (`io.EOF`), the size-limit error
(`http.MaxBytesError`), a stage-tagged decode error (`DecompressionError`),
and an untagged I/O error. -/
inductive RdErr where
  | eof : RdErr
  | maxBytes (limit : Int) : RdErr
  | decompression (encoding : String) (msg : String) : RdErr
  | ioErr (msg : String) : RdErr
deriving DecidableEq

/-! ## Opaque codec models

Modelled from the spec: the byte-level compression algorithms are external
collaborators ("treated as opaque streaming primitives", spec section 1),
specified only at their boundary.  Each format is modelled as a
header-tagged framing: the client-side encoder prepends the format's
header bytes, and the decoder checks/strips them, failing exactly where
the real library reports a header error (at open time for gzip and zlib,
which read the header in `NewReader`; at read time for raw flate and zstd,
which open lazily). -/

def gzipMagic : List Nat := [31, 139]

def zlibGoodHeader : List Nat := [120, 156]

def zstdMagic : List Nat := [40, 181, 47, 253]

def flateStoredMark : List Nat := [1, 0]

/-- Modelled from the spec: `gzip.NewReader` reads and validates the header
eagerly; a bad magic number (or an erroring upstream stream) makes
construction fail. -/
def gzipNewReader : Except RdErr (List Nat) → Option (Except RdErr (List Nat))
  | .error _ => none
  | .ok bs => if bs.take 2 = gzipMagic then some (.ok (bs.drop 2)) else none

/-- The zlib CMF/FLG validity check performed by `zlib.NewReader`
(method 8, window ≤ 7, checksum a multiple of 31). -/
def zlibHeaderOK (cmf flg : Nat) : Bool :=
  cmf &&& 15 = 8 && cmf >>> 4 ≤ 7 && ((cmf <<< 8) + flg) % 31 = 0

/-- Modelled from the spec: `zlib.NewReader` reads and validates the
two-byte header eagerly; construction fails on a bad header, a short
stream, or an erroring upstream stream. -/
def zlibNewReader : Except RdErr (List Nat) → Option (Except RdErr (List Nat))
  | .error _ => none
  | .ok (cmf :: flg :: rest) =>
    if zlibHeaderOK cmf flg then some (.ok rest) else none
  | .ok _ => none

/-- Modelled from the spec: `flate.NewReader` opens lazily and never fails
at construction; at read time it propagates upstream errors and reports
corrupt input when the framing is wrong. -/
def flateRead : Except RdErr (List Nat) → Except RdErr (List Nat)
  | .error e => .error e
  | .ok bs =>
    if bs.take 2 = flateStoredMark then .ok (bs.drop 2)
    else .error (.ioErr "flate: corrupt input")

/-- Modelled from the spec: `zstd.NewReader` (adapted via `IOReadCloser`)
does not validate the frame at construction; at read time it propagates
upstream errors and reports an invalid magic number when the framing is
wrong. -/
def zstdRead : Except RdErr (List Nat) → Except RdErr (List Nat)
  | .error e => .error e
  | .ok bs =>
    if bs.take 4 = zstdMagic then .ok (bs.drop 4)
    else .error (.ioErr "zstd: invalid header")

/-! ## Read-error tagging (`errorWrappingReadCloser`) -/

/-- Modelled from the spec: the source file defining
`errorWrappingReadCloser` and `DecompressionError` is not under `src/`
(only its use site in `MiddlewareWithOptions` and the test reading
`DecompressionError.Encoding` are).  Per spec section 4.3, any read-time
error other than end-of-stream is tagged with the stage's encoding token as
a typed decode error, and an error already tagged by an earlier stage is
not re-tagged. -/
def wrapReadErr (encoding : String) : RdErr → RdErr
  | .eof => .eof
  | .decompression tok msg => .decompression tok msg
  | .maxBytes limit => .decompression encoding (toString limit)
  | .ioErr msg => .decompression encoding msg

/-- Lift the read-error tagging of one stage to the stage's stream value. -/
def wrapStage (encoding : String) : Except RdErr (List Nat) → Except RdErr (List Nat)
  | .ok bs => .ok bs
  | .error e => .error (wrapReadErr encoding e)

/-! ## Layered Decode Builder (unpack.go lines 75-119) -/

/-- One arm of the builder's `switch`: open the decoder for one token over
the current composed stream.  `none` models `err != nil` after the switch.
The deflate arm peeks two bytes and dispatches on `looksLikeZlibHeader`;
tokens other than the three decodable ones leave the stream untouched
(the Go switch has no default arm). -/
def openStage (encoding : String) (cur : Except RdErr (List Nat)) :
    Option (Except RdErr (List Nat)) :=
  if encoding = encodingGzip then gzipNewReader cur
  else if encoding = encodingDeflate then
    match cur with
    | .error _ => none
    | .ok bs =>
      if looksLikeZlibHeader (peek2 bs) then zlibNewReader (.ok bs)
      else some (flateRead (.ok bs))
  else if encoding = encodingZstd then some (zstdRead cur)
  else some cur

/-- Embedding of the builder loop `for i := len(encodings)-1; i >= 0; i--`:
the argument list is the token list already reversed, identity tokens are
skipped, each successfully opened stage is wrapped with the read-error
tagger and registered in the closer list, and a failed open aborts with the
failing token and the closers registered so far. -/
def buildStagesRev :
    List String → Except RdErr (List Nat) → List String →
      Except (String × List String) (Except RdErr (List Nat) × List String)
  | [], cur, closers => .ok (cur, closers)
  | encoding :: rest, cur, closers =>
    if encoding = encodingIdentity then buildStagesRev rest cur closers
    else
      match openStage encoding cur with
      | none => .error (encoding, closers)
      | some opened =>
        buildStagesRev rest (wrapStage encoding opened) (closers ++ [encoding])

/-! ## Requests, options and the middleware (unpack.go lines 44-147) -/

/-- Embedding of `Options`. -/
structure Options where
  maxDecompressedBytes : Int
  strictUnsupportedEncodings : Bool
deriving DecidableEq

/-- The request fields the middleware touches: the raw `Content-Encoding`
values, the `Content-Length` header's presence, the structural
`ContentLength`, and the raw body bytes. -/
structure Request where
  contentEncodingValues : List String
  contentLengthHeaderPresent : Bool
  contentLength : Int
  body : List Nat
deriving DecidableEq

instance {ε α : Type} [DecidableEq ε] [DecidableEq α] : DecidableEq (Except ε α) := fun a b =>
  match a, b with
  | .ok x, .ok y => decidable_of_iff (x = y) (by simp)
  | .error x, .error y => decidable_of_iff (x = y) (by simp)
  | .ok _, .error _ => isFalse (by simp)
  | .error _, .ok _ => isFalse (by simp)

/-- The rewritten request handed to the downstream handler on the decode
path: the decoded body stream value, the installed byte budget, the
registered closers, and the cleared metadata. -/
structure DecodedRequest where
  body : Except RdErr (List Nat)
  limit : Int
  closers : List String
  contentEncodingValues : List String
  contentLengthHeaderPresent : Bool
  contentLength : Int
deriving DecidableEq

/-- Observable outcome of running the middleware on one request:
`passThrough r` means `next.ServeHTTP` ran with the request unchanged;
`rejected status msg closed` means the middleware wrote an error response
itself (the handler never ran) after closing the named resources in the
given order; `decoded d` means the handler ran with the rewritten
request. -/
inductive Outcome where
  | passThrough (r : Request) : Outcome
  | rejected (status : Nat) (message : String) (closedResources : List String) : Outcome
  | decoded (d : DecodedRequest) : Outcome
deriving DecidableEq

def statusUnsupportedMediaType : Nat := 415

/-- Embedding of `MiddlewareWithOptions`: parse the encoding header values;
pass through on an absent chain; on an unsupported token either reject
(strict) or pass through (permissive); pass through an all-identity chain;
otherwise build the decode pipeline over the raw body ("body" is the first
registered closer), rejecting with the failing stage's token if any open
fails, and otherwise invoke the handler with the rewritten request
(encoding header deleted, `ContentLength` set to -1, `Content-Length`
header deleted). -/
def MiddlewareWithOptions (opts : Options) (r : Request) : Outcome :=
  let encodings := parseContentEncodings r.contentEncodingValues
  if encodings = [] then .passThrough r
  else if !allSupportedEncodings encodings then
    if opts.strictUnsupportedEncodings then
      .rejected statusUnsupportedMediaType
        (unsupportedEncodingMessage (firstUnsupportedEncoding encodings))
        ["body"]
    else .passThrough r
  else if !hasDecodableEncodings encodings then .passThrough r
  else
    match buildStagesRev encodings.reverse (.ok r.body) ["body"] with
    | .error (encoding, closers) =>
      .rejected statusUnsupportedMediaType
        (decompressionErrorMessage encoding) closers.reverse
    | .ok (stream, closers) =>
      .decoded
        { body := stream
          limit := opts.maxDecompressedBytes
          closers := closers
          contentEncodingValues := []
          contentLengthHeaderPresent := false
          contentLength := -1 }

/-- The decoded body stream of an outcome, when the handler was invoked on
the decode path. -/
def Outcome.decodedBody : Outcome → Option (Except RdErr (List Nat))
  | .decoded d => some d.body
  | _ => none

/-! ## Client-side encoders (for the round-trip law)

Modelled from the spec: applying a chain of encodings "in declared
left-to-right order" (leftmost applied first, hence innermost; the
rightmost token is the outermost wrapping layer, undone first). -/

def encodeToken (encoding : String) (bs : List Nat) : List Nat :=
  if encoding = encodingGzip then gzipMagic ++ bs
  else if encoding = encodingDeflate then zlibGoodHeader ++ bs
  else if encoding = encodingZstd then zstdMagic ++ bs
  else bs

def applyChain (tokens : List String) (bs : List Nat) : List Nat :=
  tokens.foldl (fun acc encoding => encodeToken encoding acc) bs

/-! ## Bounded Reader Guard (unpack.go `maxBytesReadCloser`) -/

/-- Embedding of `maxBytesReadCloser`'s state: the inner stream state, the
byte budget `max`, and the running count `read` (both `int64` in Go). -/
structure MaxBytesReadCloser (σ : Type) where
  rc : σ
  max : Int
  read : Int
deriving DecidableEq

/-- Result of one guarded `Read`: the produced bytes, the returned error,
the successor state, and (instrumentation for the proofs) the size actually
requested from the inner stream, `none` when the inner stream was not
invoked. -/
structure ReadOutcome (σ : Type) where
  bytes : List Nat
  err : Option RdErr
  state : MaxBytesReadCloser σ
  innerRequested : Option Nat
deriving DecidableEq

/-- Embedding of `maxBytesReadCloser.Read`: a non-positive budget passes
the read through untouched; a running count at or past the budget fails
immediately with `MaxBytesError` without invoking the inner stream;
otherwise the request is clamped to the remaining budget, the inner read's
byte count is added to the running count, and a count reaching the budget
with a nil inner error converts the result into `MaxBytesError` on this
same call. -/
def maxBytesRead {σ : Type}
    (innerRead : σ → Nat → (List Nat × Option RdErr) × σ)
    (m : MaxBytesReadCloser σ) (plen : Nat) : ReadOutcome σ :=
  if m.max ≤ 0 then
    let res := innerRead m.rc plen
    { bytes := res.1.1
      err := res.1.2
      state := { rc := res.2, max := m.max, read := m.read }
      innerRequested := some plen }
  else if m.read ≥ m.max then
    { bytes := [], err := some (.maxBytes m.max), state := m, innerRequested := none }
  else
    let k := if (plen : Int) > m.max - m.read then (m.max - m.read).toNat else plen
    let res := innerRead m.rc k
    let newRead := m.read + (res.1.1.length : Int)
    { bytes := res.1.1
      err :=
        if newRead ≥ m.max ∧ res.1.2 = none then some (.maxBytes m.max)
        else res.1.2
      state := { rc := res.2, max := m.max, read := newRead }
      innerRequested := some k }

/-- Modelled from the spec: the fully decoded body as a streaming reader.
A read of `k` bytes yields the next `k` bytes and reports end-of-stream
together with the final bytes once the stream is exhausted (the behaviour
of the repository's decoders that the exact-budget test relies on). -/
def listRead (s : List Nat) (k : Nat) : (List Nat × Option RdErr) × List Nat :=
  ((s.take k, if s.drop k = [] then some RdErr.eof else none), s.drop k)

/-- A consumer loop: repeatedly read `chunk` bytes through the guard,
accumulating delivered bytes, until a read reports an error (fuel-bounded
recursion). -/
def drainBody (chunk : Nat) :
    Nat → MaxBytesReadCloser (List Nat) → List Nat → List Nat × Option RdErr
  | 0, _, acc => (acc, none)
  | fuel + 1, m, acc =>
    let out := maxBytesRead listRead m chunk
    match out.err with
    | some e => (acc ++ out.bytes, some e)
    | none => drainBody chunk fuel out.state (acc ++ out.bytes)

/-! ## Resource Closer Chain (unpack.go `closeAll`) -/

/-- Embedding of `errors.Join` as used by `closeAll`: the accumulated error
is modelled as the list of messages of the errors joined so far (`none`
being nil), each `Close()` contributing at most one error; joining keeps
all messages in order and drops nils. -/
def errJoin : Option (List String) → Option String → Option (List String)
  | none, none => none
  | some a, none => some a
  | none, some b => some [b]
  | some a, some b => some (a ++ [b])

/-- One registered resource: its name and the error its `Close` reports
(`none` for a clean close). -/
structure Closer where
  name : String
  closeErr : Option String
deriving DecidableEq

/-- Embedding of `closeAll`: iterate the closers in reverse order, joining
each close error into the accumulated error.  The second component records
(instrumentation for the proofs) the order in which resources were
released. -/
def closeAll (closers : List Closer) : Option (List String) × List String :=
  closers.reverse.foldl
    (fun acc c => (errJoin acc.1 c.closeErr, acc.2 ++ [c.name]))
    (none, [])

/-- The release order described by the spec: last-opened first. -/
def releasedOrder (closers : List Closer) : List String :=
  (closers.map Closer.name).reverse

/-- The aggregate error described by the spec: every close error, collected
in release order. -/
def aggregatedErrors (closers : List Closer) : List String :=
  closers.reverse.filterMap Closer.closeErr

/-! ## Helper lemmas -/

lemma parse_inner_foldl (parts : List (List Char)) (acc : List String) :
    parts.foldl
        (fun acc2 part =>
          let encoding := normalizeToken part
          if encoding = "" then acc2 else acc2 ++ [encoding])
        acc
      = acc ++ ((parts.map normalizeToken).filter (fun e => e ≠ "")) := by
  induction parts generalizing acc with
  | nil => simp
  | cons p rest ih =>
    simp only [List.foldl_cons, List.map_cons, List.filter_cons]
    by_cases h : normalizeToken p = ""
    · simp [h, ih]
    · simp [h, ih]

lemma foldl_append_flatMap {α β : Type} (g : β → List α) (l : List β) :
    ∀ acc : List α, l.foldl (fun acc v => acc ++ g v) acc = acc ++ l.flatMap g := by
  induction l with
  | nil => simp
  | cons v rest ih => intro acc; simp [ih, List.append_assoc]

lemma parse_eq_flatMap (values : List String) :
    parseContentEncodings values
      = values.flatMap
          (fun v =>
            ((splitOnComma v.toList).map normalizeToken).filter (fun e => e ≠ "")) := by
  have step : ∀ acc,
      values.foldl
          (fun acc value =>
            (splitOnComma value.toList).foldl
              (fun acc2 part =>
                let encoding := normalizeToken part
                if encoding = "" then acc2 else acc2 ++ [encoding])
              acc)
          acc
        = values.foldl
            (fun acc v =>
              acc ++ ((splitOnComma v.toList).map normalizeToken).filter
                (fun e => e ≠ ""))
            acc := by
    induction values with
    | nil => intro acc; rfl
    | cons v rest ih =>
      intro acc
      simp only [List.foldl_cons]
      rw [parse_inner_foldl, ih]
  rw [parseContentEncodings, step, foldl_append_flatMap]
  rfl

lemma firstUnsupported_find (encs : List String)
    (h : ∃ t ∈ encs, isSupportedEncoding t = false) :
    encs.find? (fun t => !isSupportedEncoding t)
      = some (firstUnsupportedEncoding encs) := by
  induction encs with
  | nil => simp at h
  | cons e rest ih =>
    by_cases hs : isSupportedEncoding e = true
    · have hrest : ∃ t ∈ rest, isSupportedEncoding t = false := by
        rcases h with ⟨t, ht, hf⟩
        rcases List.mem_cons.mp ht with rfl | hmem
        · rw [hs] at hf; cases hf
        · exact ⟨t, hmem, hf⟩
      simp [List.find?_cons, hs, firstUnsupportedEncoding, ih hrest]
    · have hs' : isSupportedEncoding e = false := by
        cases he : isSupportedEncoding e
        · rfl
        · exact absurd he hs
      simp [List.find?_cons, hs', firstUnsupportedEncoding]

lemma errJoin_acc (l : List (Option String)) (acc : Option (List String)) :
    l.foldl errJoin acc
      = (if l.filterMap id = [] then acc
         else some (acc.getD [] ++ l.filterMap id)) := by
  induction l generalizing acc with
  | nil => simp
  | cons o rest ih =>
    cases o with
    | none =>
      have hjoin : errJoin acc none = acc := by cases acc <;> rfl
      rw [List.foldl_cons, hjoin, ih]
      have hfm : (none :: rest).filterMap (id : Option String → Option String)
          = rest.filterMap id := by simp
      rw [hfm]
    | some b =>
      have hjoin : errJoin acc (some b) = some (acc.getD [] ++ [b]) := by
        cases acc <;> rfl
      have hfm : ((some b) :: rest).filterMap (id : Option String → Option String)
          = b :: rest.filterMap id := by simp
      rw [List.foldl_cons, hjoin, ih, hfm]
      by_cases hrest : rest.filterMap id = []
      · simp [hrest]
      · simp [hrest, List.append_assoc]

lemma closeAll_foldl_split (l : List Closer) (e : Option (List String)) (t : List String) :
    l.foldl (fun acc c => (errJoin acc.1 c.closeErr, acc.2 ++ [c.name])) (e, t)
      = ((l.map Closer.closeErr).foldl errJoin e, t ++ l.map Closer.name) := by
  induction l generalizing e t with
  | nil => simp
  | cons c rest ih => simp [List.foldl_cons, ih]

/-! ## Claim theorems -/

/-- Claim C9: the parser returns the single ordered sequence obtained by
processing header values in occurrence order, splitting each on commas
left to right, trimming and lowercasing each piece, and dropping empty
pieces; consequently the two header occurrences "gzip" then "deflate"
parse exactly as the single value "gzip, deflate", and the middleware
behaves identically on both. -/
theorem c9_parse_header_values :
    (∀ values : List String,
        parseContentEncodings values
          = values.flatMap
              (fun v =>
                ((splitOnComma v.toList).map normalizeToken).filter
                  (fun e => e ≠ "")))
    ∧ parseContentEncodings ["gzip", "deflate"]
        = parseContentEncodings ["gzip, deflate"]
    ∧ (∀ (opts : Options) (clp : Bool) (cl : Int) (body : List Nat),
        MiddlewareWithOptions opts ⟨["gzip", "deflate"], clp, cl, body⟩
          = MiddlewareWithOptions opts ⟨["gzip, deflate"], clp, cl, body⟩) := by
  refine ⟨parse_eq_flatMap, by decide, ?_⟩
  intro opts clp cl body
  rfl

/-- Claim C10: closing the pipeline releases every registered resource in
reverse acquisition order (ending with the raw body registered first),
invokes every release even when earlier releases fail, and combines all
release errors into one aggregate error returned to the caller. -/
theorem c10_close_all :
    (∀ closers : List Closer,
        closeAll closers
          = ((if aggregatedErrors closers = [] then none
              else some (aggregatedErrors closers)),
             releasedOrder closers))
    ∧ (∀ (body : Closer) (rest : List Closer),
        (closeAll (body :: rest)).2.getLast? = some body.name) := by
  have main : ∀ closers : List Closer,
      closeAll closers
        = ((if aggregatedErrors closers = [] then none
            else some (aggregatedErrors closers)),
           releasedOrder closers) := by
    intro closers
    unfold closeAll
    rw [closeAll_foldl_split]
    have hmap : (closers.reverse.map Closer.closeErr).filterMap id
        = aggregatedErrors closers := by
      simp [aggregatedErrors, List.filterMap_map]
    rw [errJoin_acc, hmap]
    simp [releasedOrder, aggregatedErrors]
  refine ⟨main, ?_⟩
  intro body rest
  rw [main]
  simp [releasedOrder]

/-- Claim C4: for every token list with at least one unsupported token, in
strict mode the middleware rejects with status 415 and the message
"Content-Encoding: (token) is not supported" naming the first unsupported
token scanned left to right, closing only the raw body and never invoking
the handler; in permissive mode the request passes through unchanged. -/
theorem c4_unsupported_token_modes :
    ∀ (opts : Options) (r : Request),
      (∃ t ∈ parseContentEncodings r.contentEncodingValues,
          isSupportedEncoding t = false) →
      ((opts.strictUnsupportedEncodings = true →
          MiddlewareWithOptions opts r
            = .rejected 415
                ("Content-Encoding: "
                  ++ firstUnsupportedEncoding
                       (parseContentEncodings r.contentEncodingValues)
                  ++ " is not supported")
                ["body"])
       ∧ (opts.strictUnsupportedEncodings = false →
          MiddlewareWithOptions opts r = .passThrough r)
       ∧ (parseContentEncodings r.contentEncodingValues).find?
            (fun t => !isSupportedEncoding t)
          = some (firstUnsupportedEncoding
                    (parseContentEncodings r.contentEncodingValues))) := by
  intro opts r h
  have hne : parseContentEncodings r.contentEncodingValues ≠ [] := by
    rcases h with ⟨t, ht, -⟩
    exact List.ne_nil_of_mem ht
  have hall : allSupportedEncodings (parseContentEncodings r.contentEncodingValues)
      = false := by
    rcases h with ⟨t, ht, hf⟩
    cases hv : allSupportedEncodings (parseContentEncodings r.contentEncodingValues)
    · rfl
    · have := (List.all_eq_true.mp hv) t ht
      rw [hf] at this; cases this
  refine ⟨?_, ?_, firstUnsupported_find _ h⟩
  · intro hstrict
    simp [MiddlewareWithOptions, hne, hall, hstrict, statusUnsupportedMediaType,
      unsupportedEncodingMessage]
  · intro hperm
    simp [MiddlewareWithOptions, hne, hall, hperm]

/-- Claim C8: a request whose parsed token list consists only of identity
tokens (any count at least one) is passed through to the handler with the
request unchanged, exactly like a request with no encoding header at all. -/
theorem c8_identity_noop :
    ∀ (opts : Options) (r : Request),
      ((parseContentEncodings r.contentEncodingValues ≠ []
          ∧ ∀ t ∈ parseContentEncodings r.contentEncodingValues,
              t = encodingIdentity) →
        MiddlewareWithOptions opts r = .passThrough r)
      ∧ (parseContentEncodings r.contentEncodingValues = [] →
        MiddlewareWithOptions opts r = .passThrough r) := by
  intro opts r
  constructor
  · rintro ⟨hne, hall⟩
    have hsupp : allSupportedEncodings (parseContentEncodings r.contentEncodingValues)
        = true := by
      apply List.all_eq_true.mpr
      intro t ht
      rw [hall t ht]
      decide
    have hdec : hasDecodableEncodings (parseContentEncodings r.contentEncodingValues)
        = false := by
      cases hv : hasDecodableEncodings (parseContentEncodings r.contentEncodingValues)
      · rfl
      · rcases List.any_eq_true.mp hv with ⟨t, ht, hp⟩
        rw [hall t ht] at hp
        cases hp
    simp [MiddlewareWithOptions, hne, hsupp, hdec]
  · intro hnil
    simp [MiddlewareWithOptions, hnil]

/-- Witness for C4 at a concrete request carrying the unsupported token
"br" in both strict and permissive mode. -/
theorem c4_unsupported_token_modes_witness :
    MiddlewareWithOptions ⟨0, true⟩ ⟨["br"], false, 5, [104, 105]⟩
        = .rejected 415 "Content-Encoding: br is not supported" ["body"]
      ∧ MiddlewareWithOptions ⟨0, false⟩ ⟨["br"], false, 5, [104, 105]⟩
        = .passThrough ⟨["br"], false, 5, [104, 105]⟩ :=
  ⟨((c4_unsupported_token_modes ⟨0, true⟩ ⟨["br"], false, 5, [104, 105]⟩
      ⟨"br", by decide, by decide⟩).1 rfl),
   ((c4_unsupported_token_modes ⟨0, false⟩ ⟨["br"], false, 5, [104, 105]⟩
      ⟨"br", by decide, by decide⟩).2.1 rfl)⟩

/-- Witness for C8 at a concrete request declaring "identity, identity". -/
theorem c8_identity_noop_witness :
    MiddlewareWithOptions ⟨0, false⟩ ⟨["identity, identity"], true, 2, [7, 8]⟩
      = .passThrough ⟨["identity, identity"], true, 2, [7, 8]⟩ :=
  (c8_identity_noop ⟨0, false⟩ ⟨["identity, identity"], true, 2, [7, 8]⟩).1
    ⟨by decide, by decide⟩

/-! ## Round trip and builder lemmas -/

lemma supported_cases (t : String) (h : isSupportedEncoding t = true) :
    t = encodingGzip ∨ t = encodingDeflate ∨ t = encodingZstd
      ∨ t = encodingIdentity := by
  simp only [isSupportedEncoding, Bool.or_eq_true, decide_eq_true_eq] at h
  tauto

lemma hasDecodable_of_exists (tokens : List String)
    (hall : allSupportedEncodings tokens = true)
    (h : ∃ t ∈ tokens, t ≠ encodingIdentity) :
    hasDecodableEncodings tokens = true := by
  obtain ⟨t, ht, hne⟩ := h
  have hs := (List.all_eq_true.mp hall) t ht
  rcases supported_cases t hs with rfl | rfl | rfl | rfl
  · exact List.any_eq_true.mpr ⟨_, ht, by decide⟩
  · exact List.any_eq_true.mpr ⟨_, ht, by decide⟩
  · exact List.any_eq_true.mpr ⟨_, ht, by decide⟩
  · exact absurd rfl hne

lemma build_step_gzip (inner : List Nat) (rest : List String) (closers : List String) :
    buildStagesRev (encodingGzip :: rest) (.ok (31 :: 139 :: inner)) closers
      = buildStagesRev rest (.ok inner) (closers ++ [encodingGzip]) := rfl

lemma build_step_deflate (inner : List Nat) (rest : List String) (closers : List String) :
    buildStagesRev (encodingDeflate :: rest) (.ok (120 :: 156 :: inner)) closers
      = buildStagesRev rest (.ok inner) (closers ++ [encodingDeflate]) := rfl

lemma build_step_zstd (inner : List Nat) (rest : List String) (closers : List String) :
    buildStagesRev (encodingZstd :: rest) (.ok (40 :: 181 :: 47 :: 253 :: inner)) closers
      = buildStagesRev rest (.ok inner) (closers ++ [encodingZstd]) := rfl

lemma build_step_identity (cur : Except RdErr (List Nat)) (rest : List String)
    (closers : List String) :
    buildStagesRev (encodingIdentity :: rest) cur closers
      = buildStagesRev rest cur closers := rfl

lemma build_roundtrip (revToks : List String) (bs : List Nat)
    (h : ∀ t ∈ revToks, isSupportedEncoding t = true) :
    ∀ closers : List String,
      buildStagesRev revToks
          (.ok (revToks.foldr (fun t acc => encodeToken t acc) bs)) closers
        = .ok (.ok bs, closers ++ revToks.filter (fun t => t ≠ encodingIdentity)) := by
  induction revToks with
  | nil => intro closers; simp [buildStagesRev]
  | cons t rest ih =>
    intro closers
    have ht := h t (List.mem_cons_self t rest)
    have hrest : ∀ x ∈ rest, isSupportedEncoding x = true :=
      fun x hx => h x (List.mem_cons_of_mem t hx)
    rcases supported_cases t ht with rfl | rfl | rfl | rfl
    · simp only [List.foldr_cons]
      rw [show encodeToken encodingGzip
            (rest.foldr (fun t acc => encodeToken t acc) bs)
              = 31 :: 139 :: rest.foldr (fun t acc => encodeToken t acc) bs from rfl,
        build_step_gzip, ih hrest]
      simp [List.filter_cons, encodingGzip, encodingIdentity, List.append_assoc]
    · simp only [List.foldr_cons]
      rw [show encodeToken encodingDeflate
            (rest.foldr (fun t acc => encodeToken t acc) bs)
              = 120 :: 156 :: rest.foldr (fun t acc => encodeToken t acc) bs from rfl,
        build_step_deflate, ih hrest]
      simp [List.filter_cons, encodingDeflate, encodingIdentity, List.append_assoc]
    · simp only [List.foldr_cons]
      rw [show encodeToken encodingZstd
            (rest.foldr (fun t acc => encodeToken t acc) bs)
              = 40 :: 181 :: 47 :: 253 :: rest.foldr (fun t acc => encodeToken t acc) bs
          from rfl,
        build_step_zstd, ih hrest]
      simp [List.filter_cons, encodingZstd, encodingIdentity, List.append_assoc]
    · simp only [List.foldr_cons]
      rw [show encodeToken encodingIdentity
            (rest.foldr (fun t acc => encodeToken t acc) bs)
              = rest.foldr (fun t acc => encodeToken t acc) bs from rfl,
        build_step_identity, ih hrest]
      simp [List.filter_cons]

lemma build_error_facts (revToks : List String) :
    ∀ (cur : Except RdErr (List Nat)) (closers0 : List String)
      (tok : String) (closers : List String),
      buildStagesRev revToks cur closers0 = .error (tok, closers) →
      tok ∈ revToks ∧ ∃ ext, closers = closers0 ++ ext := by
  induction revToks with
  | nil => intro cur closers0 tok closers h; simp [buildStagesRev] at h
  | cons t rest ih =>
    intro cur closers0 tok closers h
    rw [buildStagesRev] at h
    by_cases hid : t = encodingIdentity
    · rw [if_pos hid] at h
      obtain ⟨hmem, hext⟩ := ih cur closers0 tok closers h
      exact ⟨List.mem_cons_of_mem t hmem, hext⟩
    · rw [if_neg hid] at h
      cases hopen : openStage t cur with
      | none =>
        rw [hopen] at h
        injection h with h'
        obtain ⟨rfl, rfl⟩ := Prod.mk.injEq .. ▸ Prod.ext_iff.mp h'
        exact ⟨List.mem_cons_self t rest, [], by simp⟩
      | some opened =>
        rw [hopen] at h
        obtain ⟨hmem, ext, hext⟩ := ih _ _ tok closers h
        exact ⟨List.mem_cons_of_mem t hmem,
          t :: ext, by simpa [List.append_assoc] using hext⟩

/-- Claim C1: for every chain of supported tokens with at least one
non-identity token, the middleware (which iterates the token list from last
to first, skipping identity) decodes a body produced by applying the
encodings in declared left-to-right order back to the original plaintext:
the downstream handler reads exactly the original bytes. -/
theorem c1_round_trip :
    ∀ (opts : Options) (r : Request) (tokens : List String) (plain : List Nat),
      parseContentEncodings r.contentEncodingValues = tokens →
      allSupportedEncodings tokens = true →
      (∃ t ∈ tokens, t ≠ encodingIdentity) →
      r.body = applyChain tokens plain →
      Outcome.decodedBody (MiddlewareWithOptions opts r) = some (.ok plain) := by
  intro opts r tokens plain hparse hall hex hbody
  have hdec := hasDecodable_of_exists tokens hall hex
  have hne : tokens ≠ [] := by
    rcases hex with ⟨t, ht, -⟩
    exact List.ne_nil_of_mem ht
  have hrev : ∀ t ∈ tokens.reverse, isSupportedEncoding t = true := by
    intro t ht
    exact (List.all_eq_true.mp hall) t (List.mem_reverse.mp ht)
  have happly : applyChain tokens plain
      = tokens.reverse.foldr (fun t acc => encodeToken t acc) plain := by
    rw [List.foldr_reverse]
    rfl
  have hbuild := build_roundtrip tokens.reverse plain hrev ["body"]
  simp only [MiddlewareWithOptions, hparse]
  rw [if_neg hne,
    if_neg (show ¬((!allSupportedEncodings tokens) = true) by simp [hall]),
    if_neg (show ¬((!hasDecodableEncodings tokens) = true) by simp [hdec]),
    hbody, happly, hbuild]
  rfl

/-- Witness for C1: the chain "gzip, deflate" (gzip applied first, deflate
wrapped around it) decodes back to the plaintext. -/
theorem c1_round_trip_witness :
    Outcome.decodedBody
        (MiddlewareWithOptions ⟨0, false⟩
          ⟨["gzip, deflate"], false, 6, [120, 156, 31, 139, 104, 105]⟩)
      = some (.ok [104, 105]) :=
  c1_round_trip ⟨0, false⟩
    ⟨["gzip, deflate"], false, 6, [120, 156, 31, 139, 104, 105]⟩
    ["gzip", "deflate"] [104, 105]
    (by decide) (by decide) ⟨"gzip", by decide, by decide⟩ (by decide)

/-- Claim C5: if opening the decoder for any stage fails, the middleware
rejects with status 415 and the message "Content-Encoding: (token) set but
unable to decompress body" naming the failing stage's token, the handler is
never invoked, and every resource registered so far (the raw body first,
then each opened stage) is closed. -/
theorem c5_open_failure_aborts :
    ∀ (opts : Options) (r : Request) (tok : String) (closers : List String),
      allSupportedEncodings (parseContentEncodings r.contentEncodingValues) = true →
      hasDecodableEncodings (parseContentEncodings r.contentEncodingValues) = true →
      buildStagesRev (parseContentEncodings r.contentEncodingValues).reverse
          (.ok r.body) ["body"] = .error (tok, closers) →
      MiddlewareWithOptions opts r
          = .rejected 415
              ("Content-Encoding: " ++ tok ++ " set but unable to decompress body")
              closers.reverse
        ∧ tok ∈ parseContentEncodings r.contentEncodingValues
        ∧ ∃ opened, closers = "body" :: opened := by
  intro opts r tok closers hall hdec hbuild
  have hne : parseContentEncodings r.contentEncodingValues ≠ [] := by
    intro hnil
    rw [hnil] at hdec
    cases hdec
  obtain ⟨hmem, ext, hext⟩ := build_error_facts _ _ _ _ _ hbuild
  refine ⟨?_, List.mem_reverse.mp hmem, ext, by simpa using hext⟩
  rw [MiddlewareWithOptions]
  rw [if_neg hne, if_neg (by simp [hall]), if_neg (by simp [hdec]), hbuild]
  rfl

/-- Witness for C5: a chain "gzip, zstd" over a body with no zstd frame:
the zstd stage opens (it validates only at read time), its read error makes
the gzip stage's construction fail, and both the body and the zstd stage
are closed, in reverse order. -/
theorem c5_open_failure_aborts_witness :
    MiddlewareWithOptions ⟨0, false⟩ ⟨["gzip, zstd"], false, 2, [9, 9]⟩
      = .rejected 415 "Content-Encoding: gzip set but unable to decompress body"
          ["zstd", "body"] :=
  (c5_open_failure_aborts ⟨0, false⟩ ⟨["gzip, zstd"], false, 2, [9, 9]⟩
    "gzip" ["body", "zstd"] (by decide) (by decide) (by decide)).1

/-! ## zlib header sniffing -/

lemma and_fifteen (n : Nat) : n &&& 15 = n % 16 := by
  have h := Nat.and_pow_two_sub_one_eq_mod n 4
  norm_num at h
  exact h

lemma shiftRight_four (n : Nat) : n >>> 4 = n / 16 := by
  rw [Nat.shiftRight_eq_div_pow]

lemma shiftLeft_eight (n : Nat) : n <<< 8 = n * 256 := by
  rw [Nat.shiftLeft_eq]

/-- Claim C6: a deflate stage is treated as zlib-wrapped iff the two-byte
peek fails (fail-soft default) or the peeked bytes (cmf, flg) have low
nibble of cmf equal to 8, high nibble of cmf at most 7, and cmf*256+flg an
exact multiple of 31; a body that is valid raw deflate (failing that
check) still decodes correctly through the middleware. -/
theorem c6_zlib_header_sniff :
    (∀ cmf flg : Nat, cmf < 256 → flg < 256 →
        (looksLikeZlibHeader (some (cmf, flg)) = true
          ↔ (cmf % 16 = 8 ∧ cmf / 16 ≤ 7 ∧ (cmf * 256 + flg) % 31 = 0)))
    ∧ looksLikeZlibHeader none = true
    ∧ (∀ (opts : Options) (r : Request) (plain : List Nat),
        parseContentEncodings r.contentEncodingValues = [encodingDeflate] →
        r.body = flateStoredMark ++ plain →
        Outcome.decodedBody (MiddlewareWithOptions opts r) = some (.ok plain)) := by
  refine ⟨?_, rfl, ?_⟩
  · intro cmf flg _ _
    simp only [looksLikeZlibHeader, and_fifteen, shiftRight_four, shiftLeft_eight]
    constructor
    · intro h
      by_cases h1 : cmf % 16 = 8
      · by_cases h2 : cmf / 16 ≤ 7
        · refine ⟨h1, h2, ?_⟩
          rw [if_neg (by simp [h1]), if_neg (by omega)] at h
          exact of_decide_eq_true h
        · rw [if_neg (by simp [h1]), if_pos (by omega)] at h
          cases h
      · rw [if_pos (by simp [h1])] at h
        cases h
    · rintro ⟨h1, h2, h3⟩
      rw [if_neg (by simp [h1]), if_neg (by omega)]
      exact decide_eq_true h3
  · intro opts r plain hparse hbody
    have hbuild : buildStagesRev [encodingDeflate] (.ok (1 :: 0 :: plain)) ["body"]
        = .ok (.ok plain, ["body", encodingDeflate]) := rfl
    simp only [MiddlewareWithOptions, hparse]
    rw [if_neg (by simp),
      if_neg (show ¬((!allSupportedEncodings [encodingDeflate]) = true) by decide),
      if_neg (show ¬((!hasDecodableEncodings [encodingDeflate]) = true) by decide)]
    rw [show ([encodingDeflate] : List String).reverse = [encodingDeflate] from rfl,
      hbody]
    rw [show flateStoredMark ++ plain = 1 :: 0 :: plain from rfl, hbuild]
    rfl

/-- Witness for C6: the header pair (120, 156) passes the zlib check, and a
raw-deflate body declared as deflate decodes to its payload. -/
theorem c6_zlib_header_sniff_witness :
    (looksLikeZlibHeader (some (120, 156)) = true
      ↔ (120 % 16 = 8 ∧ 120 / 16 ≤ 7 ∧ (120 * 256 + 156) % 31 = 0))
    ∧ Outcome.decodedBody
        (MiddlewareWithOptions ⟨0, false⟩ ⟨["deflate"], false, 4, [1, 0, 8, 9]⟩)
      = some (.ok [8, 9]) :=
  ⟨c6_zlib_header_sniff.1 120 156 (by decide) (by decide),
   c6_zlib_header_sniff.2.2 ⟨0, false⟩ ⟨["deflate"], false, 4, [1, 0, 8, 9]⟩
     [8, 9] (by decide) (by decide)⟩

/-! ## Read-time error tagging -/

/-- Claim C7: every opened stage is wrapped so read-time errors other than
end-of-stream are tagged with the stage's token as a typed decode error;
end-of-stream passes untouched; an error already tagged by an earlier stage
is not re-tagged; the tagged error is distinguishable from end-of-stream
and from the size-limit error; and the middleware writes no HTTP response
for read-time failures: once the pipeline builds, the outcome is the
handler invocation carrying the (possibly erroring) stream. -/
theorem c7_read_error_tagging :
    (∀ enc, wrapReadErr enc .eof = .eof)
    ∧ (∀ enc tok msg, wrapReadErr enc (.decompression tok msg) = .decompression tok msg)
    ∧ (∀ enc msg, wrapReadErr enc (.ioErr msg) = .decompression enc msg)
    ∧ (∀ enc msg, RdErr.decompression enc msg ≠ RdErr.eof
        ∧ ∀ limit, RdErr.decompression enc msg ≠ RdErr.maxBytes limit)
    ∧ (∀ (opts : Options) (r : Request) (stream : Except RdErr (List Nat))
          (closers : List String),
        allSupportedEncodings (parseContentEncodings r.contentEncodingValues) = true →
        hasDecodableEncodings (parseContentEncodings r.contentEncodingValues) = true →
        buildStagesRev (parseContentEncodings r.contentEncodingValues).reverse
            (.ok r.body) ["body"] = .ok (stream, closers) →
        MiddlewareWithOptions opts r
          = .decoded
              { body := stream
                limit := opts.maxDecompressedBytes
                closers := closers
                contentEncodingValues := []
                contentLengthHeaderPresent := false
                contentLength := -1 }) := by
  refine ⟨fun _ => rfl, fun _ _ _ => rfl, fun _ _ => rfl,
    fun _ _ => ⟨by simp, fun _ => by simp⟩, ?_⟩
  intro opts r stream closers hall hdec hbuild
  have hne : parseContentEncodings r.contentEncodingValues ≠ [] := by
    intro hnil
    rw [hnil] at hdec
    cases hdec
  rw [MiddlewareWithOptions]
  rw [if_neg hne, if_neg (by simp [hall]), if_neg (by simp [hdec]), hbuild]

/-- Witness for C7: the chain "zstd, deflate" over a body that is neither
zlib nor stored-flate framed: the deflate stage opens (raw-flate opens
lazily), its read error is tagged "deflate", and the zstd stage passes the
already-tagged error through without re-tagging; the middleware still
invokes the handler, delivering the tagged error in the body stream. -/
theorem c7_read_error_tagging_witness :
    MiddlewareWithOptions ⟨0, false⟩ ⟨["zstd, deflate"], false, 2, [9, 9]⟩
      = .decoded
          { body := .error (.decompression "deflate" "flate: corrupt input")
            limit := 0
            closers := ["body", "deflate", "zstd"]
            contentEncodingValues := []
            contentLengthHeaderPresent := false
            contentLength := -1 } :=
  c7_read_error_tagging.2.2.2.2 ⟨0, false⟩ ⟨["zstd, deflate"], false, 2, [9, 9]⟩
    (.error (.decompression "deflate" "flate: corrupt input"))
    ["body", "deflate", "zstd"] (by decide) (by decide) (by decide)

/-! ## Bounded reader guard -/

/-- Claim C3: one guarded read satisfies the full contract: a non-positive
budget passes the read through untouched (no clamp, no counter update); a
running count at or past the budget fails immediately with the limit error
carrying the budget, without invoking the inner stream; otherwise the
request is clamped to at most budget minus count, the inner read's
produced byte count is added to the count, and if the count has reached
the budget and the inner read reported no error the result is converted
into the limit error on that same call, while an inner error (including
end-of-stream) is returned instead. -/
theorem c3_bounded_reader_guard :
    ∀ (σ : Type) (innerRead : σ → Nat → (List Nat × Option RdErr) × σ)
      (m : MaxBytesReadCloser σ) (plen : Nat),
      (m.max ≤ 0 →
        maxBytesRead innerRead m plen
          = { bytes := (innerRead m.rc plen).1.1
              err := (innerRead m.rc plen).1.2
              state := { rc := (innerRead m.rc plen).2, max := m.max, read := m.read }
              innerRequested := some plen })
      ∧ (0 < m.max → m.read ≥ m.max →
        maxBytesRead innerRead m plen
          = { bytes := [], err := some (.maxBytes m.max), state := m,
              innerRequested := none })
      ∧ (0 < m.max → m.read < m.max →
        maxBytesRead innerRead m plen
          = { bytes := (innerRead m.rc (min plen ((m.max - m.read).toNat))).1.1
              err :=
                if m.max ≤ m.read
                    + ((innerRead m.rc (min plen ((m.max - m.read).toNat))).1.1.length : Int)
                  ∧ (innerRead m.rc (min plen ((m.max - m.read).toNat))).1.2 = none
                then some (.maxBytes m.max)
                else (innerRead m.rc (min plen ((m.max - m.read).toNat))).1.2
              state :=
                { rc := (innerRead m.rc (min plen ((m.max - m.read).toNat))).2
                  max := m.max
                  read := m.read
                    + ((innerRead m.rc (min plen ((m.max - m.read).toNat))).1.1.length : Int) }
              innerRequested := some (min plen ((m.max - m.read).toNat)) }) := by
  intro σ innerRead m plen
  refine ⟨?_, ?_, ?_⟩
  · intro hle
    rw [maxBytesRead, if_pos hle]
  · intro hpos hge
    rw [maxBytesRead, if_neg (by omega), if_pos hge]
  · intro hpos hlt
    have hk : (if (plen : Int) > m.max - m.read then (m.max - m.read).toNat else plen)
        = min plen ((m.max - m.read).toNat) := by
      split_ifs with h <;> omega
    rw [maxBytesRead, if_neg (by omega), if_neg (by omega)]
    simp only [hk]

/-- Witness for C3: the three cases of the guard contract at concrete
states over a concrete list stream. -/
theorem c3_bounded_reader_guard_witness :
    maxBytesRead listRead ⟨[5, 6, 7], -1, 0⟩ 2
        = { bytes := [5, 6], err := none, state := ⟨[7], -1, 0⟩,
            innerRequested := some 2 }
      ∧ maxBytesRead listRead ⟨[5, 6, 7], 2, 2⟩ 2
        = { bytes := [], err := some (.maxBytes 2), state := ⟨[5, 6, 7], 2, 2⟩,
            innerRequested := none }
      ∧ maxBytesRead listRead ⟨[5, 6, 7], 2, 0⟩ 9
        = { bytes := [5, 6], err := some (.maxBytes 2), state := ⟨[7], 2, 2⟩,
            innerRequested := some 2 } := by
  refine ⟨?_, ?_, ?_⟩
  · rw [(c3_bounded_reader_guard (List Nat) listRead ⟨[5, 6, 7], -1, 0⟩ 2).1
      (by decide)]
    decide
  · rw [(c3_bounded_reader_guard (List Nat) listRead ⟨[5, 6, 7], 2, 2⟩ 2).2.1
      (by decide) (by decide)]
  · rw [(c3_bounded_reader_guard (List Nat) listRead ⟨[5, 6, 7], 2, 0⟩ 9).2.2
      (by decide) (by decide)]
    decide

lemma guard_step (B R : Nat) (rem : List Nat) (c : Nat) (hlt : R < B) :
    maxBytesRead listRead ⟨rem, (B : Int), (R : Int)⟩ c
      = { bytes := rem.take (min c (B - R))
          err :=
            if rem.drop (min c (B - R)) = [] then some RdErr.eof
            else if B ≤ R + (rem.take (min c (B - R))).length
              then some (.maxBytes (B : Int)) else none
          state := ⟨rem.drop (min c (B - R)), (B : Int),
            (R : Int) + ((rem.take (min c (B - R))).length : Int)⟩
          innerRequested := some (min c (B - R)) } := by
  rw [maxBytesRead]
  rw [if_neg (show ¬((B : Int) ≤ 0) by omega),
    if_neg (show ¬((R : Int) ≥ (B : Int)) by omega)]
  have hk : (if (c : Int) > (B : Int) - (R : Int)
        then ((B : Int) - (R : Int)).toNat else c) = min c (B - R) := by
    split_ifs <;> omega
  rw [hk]
  simp only [listRead]
  dsimp only
  congr 1
  by_cases hdrop : rem.drop (min c (B - R)) = []
  · simp [hdrop]
  · simp only [if_neg hdrop, and_true]
    have hsplit : ((B : Int) ≤ (R : Int) + ((rem.take (min c (B - R))).length : Int))
        ↔ (B ≤ R + (rem.take (min c (B - R))).length) := by
      constructor <;> intro h <;> omega
    exact if_congr hsplit rfl rfl

lemma drain_exact (B c : Nat) (hc : 0 < c) :
    ∀ (fuel : Nat) (rem : List Nat) (R : Nat) (acc : List Nat),
      R < B → rem.length = B - R → rem.length ≤ fuel →
      drainBody c fuel ⟨rem, (B : Int), (R : Int)⟩ acc = (acc ++ rem, some RdErr.eof) := by
  intro fuel
  induction fuel with
  | zero => intro rem R acc hlt hlen hfuel; omega
  | succ f ih =>
    intro rem R acc hlt hlen hfuel
    rw [drainBody, guard_step B R rem c hlt]
    by_cases hk : B - R ≤ c
    · have hkmin : min c (B - R) = B - R := by omega
      rw [hkmin]
      have hdrop : rem.drop (B - R) = [] := by
        apply List.drop_eq_nil_of_le
        omega
      have htake : rem.take (B - R) = rem := by
        apply List.take_of_length_le
        omega
      rw [if_pos hdrop, htake]
    · have hkmin : min c (B - R) = c := by omega
      rw [hkmin]
      have hdrop : ¬(rem.drop c = []) := by
        intro hnil
        have := List.drop_eq_nil_iff.mp hnil
        omega
      have htakelen : (rem.take c).length = c := by
        rw [List.length_take]
        omega
      have hcond : ¬(B ≤ R + (rem.take c).length) := by
        rw [htakelen]
        omega
      rw [if_neg hdrop, if_neg hcond]
      have hcast : (R : Int) + (((rem.take c).length : Nat) : Int)
          = ((R + c : Nat) : Int) := by
        rw [htakelen]
        push_cast
        ring
      rw [hcast]
      have hrec := ih (rem.drop c) (R + c) (acc ++ rem.take c)
        (by omega) (by rw [List.length_drop]; omega)
        (by rw [List.length_drop]; omega)
      rw [hrec]
      show ((acc ++ rem.take c) ++ rem.drop c, (some RdErr.eof : Option RdErr))
        = (acc ++ rem, some RdErr.eof)
      rw [List.append_assoc, List.take_append_drop]

lemma drain_over (B c : Nat) (hc : 0 < c) :
    ∀ (fuel : Nat) (rem : List Nat) (R : Nat) (acc : List Nat),
      R < B → B - R < rem.length → B - R ≤ fuel →
      drainBody c fuel ⟨rem, (B : Int), (R : Int)⟩ acc
        = (acc ++ rem.take (B - R), some (.maxBytes (B : Int))) := by
  intro fuel
  induction fuel with
  | zero => intro rem R acc hlt hlen hfuel; omega
  | succ f ih =>
    intro rem R acc hlt hlen hfuel
    rw [drainBody, guard_step B R rem c hlt]
    have hklt : min c (B - R) < rem.length := by omega
    have hdrop : ¬(rem.drop (min c (B - R)) = []) := by
      intro hnil
      have := List.drop_eq_nil_iff.mp hnil
      omega
    have htakelen : (rem.take (min c (B - R))).length = min c (B - R) := by
      rw [List.length_take]
      omega
    by_cases hge : B ≤ R + (rem.take (min c (B - R))).length
    · have hkmin : min c (B - R) = B - R := by
        rw [htakelen] at hge
        omega
      rw [if_neg hdrop, if_pos hge, hkmin]
    · have hkmin : min c (B - R) = c := by
        rw [htakelen] at hge
        omega
      have hclt : c < B - R := by
        rw [htakelen, hkmin] at hge
        omega
      rw [if_neg hdrop, if_neg hge, hkmin]
      have hcast : (R : Int) + (((rem.take c).length : Nat) : Int)
          = ((R + c : Nat) : Int) := by
        rw [hkmin] at htakelen
        rw [htakelen]
        push_cast
        ring
      rw [hcast]
      have hrec := ih (rem.drop c) (R + c) (acc ++ rem.take c)
        (by omega) (by rw [List.length_drop]; omega) (by omega)
      rw [hrec]
      have hBR : B - (R + c) = B - R - c := by omega
      have htadd : rem.take c ++ (rem.drop c).take (B - R - c) = rem.take (B - R) := by
        rw [← List.take_add]
        congr 1
        omega
      show ((acc ++ rem.take c) ++ (rem.drop c).take (B - (R + c)),
          (some (RdErr.maxBytes (B : Int)) : Option RdErr))
        = (acc ++ rem.take (B - R), some (RdErr.maxBytes (B : Int)))
      rw [hBR, List.append_assoc, htadd]

/-- Claim C2: with a configured decoded-byte budget B greater than zero, a
consumer draining the installed guarded body receives all B bytes with no
limit-exceeded signal when the decoded length is exactly B (the final read
reports end-of-stream), and receives at most the first B bytes followed by
the limit-exceeded signal when the decoded length is B+1 or more. -/
theorem c2_decoded_byte_budget :
    ∀ (opts : Options) (r : Request) (d : DecodedRequest) (data : List Nat) (B : Nat),
      MiddlewareWithOptions opts r = .decoded d →
      d.body = .ok data → d.limit = (B : Int) → 0 < B →
      ∀ chunk fuel, 0 < chunk → data.length ≤ fuel →
        ((data.length = B →
            drainBody chunk fuel ⟨data, (B : Int), 0⟩ [] = (data, some RdErr.eof))
          ∧ (B < data.length →
            drainBody chunk fuel ⟨data, (B : Int), 0⟩ []
              = (data.take B, some (.maxBytes (B : Int))))) := by
  intro opts r d data B hmw hbody hlimit hB chunk fuel hchunk hfuel
  constructor
  · intro hlen
    have h := drain_exact B chunk hchunk fuel data 0 [] (by omega) (by omega) hfuel
    simpa using h
  · intro hlen
    have h := drain_over B chunk hchunk fuel data 0 [] (by omega) (by omega)
      (by omega)
    simpa using h

/-- Witness for C2: a gzip body decoding to three bytes under a budget of
three is delivered whole with end-of-stream, and under a budget of two is
cut to two bytes with the limit error. -/
theorem c2_decoded_byte_budget_witness :
    drainBody 2 3 ⟨[10, 20, 30], (3 : Int), 0⟩ [] = ([10, 20, 30], some RdErr.eof)
      ∧ drainBody 2 3 ⟨[10, 20, 30], (2 : Int), 0⟩ []
        = ([10, 20], some (.maxBytes (2 : Int))) :=
  ⟨(c2_decoded_byte_budget ⟨3, false⟩ ⟨["gzip"], false, 5, [31, 139, 10, 20, 30]⟩
      ⟨.ok [10, 20, 30], 3, ["body", "gzip"], [], false, -1⟩ [10, 20, 30] 3
      (by decide) rfl (by decide) (by decide) 2 3 (by decide) (by decide)).1 rfl,
   (c2_decoded_byte_budget ⟨2, false⟩ ⟨["gzip"], false, 5, [31, 139, 10, 20, 30]⟩
      ⟨.ok [10, 20, 30], 2, ["body", "gzip"], [], false, -1⟩ [10, 20, 30] 2
      (by decide) rfl (by decide) (by decide) 2 3 (by decide) (by decide)).2
     (by decide)⟩

end Unpack
